import Mathlib

/-!
Verification development for the django-commcare schema scraper.

The definitions below are a shallow embedding of the Python source:
`management/commands/scrape.py` (tree normalization, sheet-name
compression, the run-wide name registry, form/case spreadsheet
generation) and `utils.py` (table creation and column reconciliation).
Worksheet/file side effects are omitted; the data each function returns,
the mutable name registry and the live database table are modelled as
explicit values.  Fallible Python code (uncaught exceptions, `exit()`)
is modelled with `Option`, `none` standing for the aborted run.

Python's string primitives (`replace`, `split`, `join`, `lower`,
substring `in`) are implemented structurally over character lists so
that every definition evaluates inside the kernel.
-/

namespace DjangoCommcare

/-! ### Python string primitives -/

/-- Python prefix test over character lists: `charPre n h` holds when
the list `n` is an initial segment of `h`. -/
def charPre : List Char → List Char → Bool
  | [], _ => true
  | _ :: _, [] => false
  | a :: as2, b :: bs2 => a == b && charPre as2 bs2

/-- Python contiguous-substring search over character lists. -/
def charSub (needle : List Char) : List Char → Bool
  | [] => charPre needle []
  | b :: bs2 => charPre needle (b :: bs2) || charSub needle bs2

/-- Python `needle in haystack` on strings (contiguous substring). -/
def pyInStr (needle hay : String) : Bool := charSub needle.data hay.data

/-- Scanner behind Python `str.replace`: when `skip` is zero and the
pattern matches at the head, the replacement is emitted and the matched
characters are then consumed one at a time through the `skip` counter,
keeping the recursion structural on the scanned list. -/
def replGo (pat rep : List Char) : Nat → List Char → List Char
  | _, [] => []
  | skip + 1, _ :: cs => replGo pat rep skip cs
  | 0, c :: cs =>
    if charPre pat (c :: cs) then rep ++ replGo pat rep (pat.length - 1) cs
    else c :: replGo pat rep 0 cs

/-- Python `s.replace(pat, rep)`: all non-overlapping occurrences, left
to right.  The source never replaces an empty pattern. -/
def pyReplace (s pat rep : String) : String :=
  if pat.data = [] then s else String.mk (replGo pat.data rep.data 0 s.data)

/-- Python `s.lower()`, character by character. -/
def pyLower (s : String) : String := String.mk (s.data.map Char.toLower)

/-- Python `s.split(sep)` for a one-character separator. -/
def splitChar (sep : Char) : List Char → List (List Char)
  | [] => [[]]
  | c :: cs =>
    if c = sep then [] :: splitChar sep cs
    else
      match splitChar sep cs with
      | [] => [[c]]
      | w :: ws => (c :: w) :: ws

/-- Python `sep.join(words)` for a one-character separator. -/
def joinChar (sep : Char) : List (List Char) → List Char
  | [] => []
  | [w] => w
  | w :: ws => w ++ sep :: joinChar sep ws

/-- Python `s.split('_')` as a list of strings. -/
def pySplitU (s : String) : List String := (splitChar '_' s.data).map String.mk

/-- Python `'_'.join(ws)`. -/
def pyJoinU (ws : List String) : String := String.mk (joinChar '_' (ws.map String.data))

/-! ### Tree normalization (`get_all_forms`, scrape.py lines 130-278) -/

/-- Tree node built by `get_all_forms` (scrape.py): mirrors the
question/form dicts with their `value`, `type`, `group` flag, the
`group`/`repeat` membership hints, and the three child lists `groups`,
`loops`, `questions`.  The form root has `value = none` and an empty
type tag. -/
inductive QNode : Type where
  | mk (value : Option String) (qtype : String) (isGroup : Bool)
       (group_member loop_member : Option String)
       (groups loops questions : List QNode)

def QNode.value : QNode → Option String
  | .mk v _ _ _ _ _ _ _ => v

def QNode.qtype : QNode → String
  | .mk _ t _ _ _ _ _ _ => t

def QNode.isGroup : QNode → Bool
  | .mk _ _ g _ _ _ _ _ => g

def QNode.group_member : QNode → Option String
  | .mk _ _ _ gm _ _ _ _ => gm

def QNode.loop_member : QNode → Option String
  | .mk _ _ _ _ lm _ _ _ => lm

def QNode.groups : QNode → List QNode
  | .mk _ _ _ _ _ gs _ _ => gs

def QNode.loops : QNode → List QNode
  | .mk _ _ _ _ _ _ ls _ => ls

def QNode.questions : QNode → List QNode
  | .mk _ _ _ _ _ _ _ qs => qs

def QNode.setGroups : QNode → List QNode → QNode
  | .mk v t g gm lm _ ls qs, gs => .mk v t g gm lm gs ls qs

def QNode.setLoops : QNode → List QNode → QNode
  | .mk v t g gm lm gs _ qs, ls => .mk v t g gm lm gs ls qs

def QNode.setQuestions : QNode → List QNode → QNode
  | .mk v t g gm lm gs ls _, qs => .mk v t g gm lm gs ls qs

/-- Python truthiness of an optional string: `None` and `""` are falsy. -/
def truthy : Option String → Option String
  | none => none
  | some s => if s = "" then none else some s

/-- Parent-name resolution of `get_all_forms` (scrape.py lines 239-257).
The outer Python conditional is `if group_name:`, with no `else`, so when
only the loop hint is truthy, `parent_name` keeps its initial `None`. -/
def resolve_parent_name (group_member loop_member : Option String) : Option String :=
  match truthy group_member, truthy loop_member with
  | some g, some l =>
      if pyInStr l g && decide (l.length < g.length) then some g else some l
  | some g, none => some g
  | none, _ => none

mutual

/-- Depth-first parent lookup of `find_parent` (scrape.py lines 70-88):
the node itself, then its groups recursively, then its loops. -/
def findParent (n : QNode) (p : Option String) : Option QNode :=
  match n with
  | .mk v t g gm lm gs ls qs =>
    if v = p then some (.mk v t g gm lm gs ls qs)
    else
      match findParentL gs p with
      | some r => some r
      | none => findParentL ls p

def findParentL (ns : List QNode) (p : Option String) : Option QNode :=
  match ns with
  | [] => none
  | n :: rest =>
    match findParent n p with
    | some r => some r
    | none => findParentL rest p

end

/-- Classification appends of `get_all_forms` (scrape.py lines 264-275):
three independent `if`s applied in order to the resolved parent. -/
def addChild (p q : QNode) : QNode :=
  let p1 := if q.isGroup && !(q.qtype == "Repeat") then p.setGroups (p.groups ++ [q]) else p
  let p2 := if q.qtype == "Repeat" then p1.setLoops (p1.loops ++ [q]) else p1
  if !q.isGroup then p2.setQuestions (p2.questions ++ [q]) else p2

/-- Number of child lists the classification step appends `q` to. -/
def placements (q : QNode) : Nat :=
  (if q.isGroup && !(q.qtype == "Repeat") then 1 else 0) +
  (if q.qtype == "Repeat" then 1 else 0) +
  (if !q.isGroup then 1 else 0)

mutual

/-- Combined `find_parent` plus in-place append: the Python code keeps a
reference into the mutable tree and appends to the first node (in
`find_parent` order: self, groups, loops) whose `value` matches.  `none`
when no node matches (the Python run crashes on `None[...]`). -/
def insertQ (n : QNode) (p : Option String) (q : QNode) : Option QNode :=
  match n with
  | .mk v t g gm lm gs ls qs =>
    if v = p then some (addChild (.mk v t g gm lm gs ls qs) q)
    else
      match insertQL gs p q with
      | some gs2 => some (.mk v t g gm lm gs2 ls qs)
      | none =>
        match insertQL ls p q with
        | some ls2 => some (.mk v t g gm lm gs ls2 qs)
        | none => none

def insertQL (ns : List QNode) (p : Option String) (q : QNode) : Option (List QNode) :=
  match ns with
  | [] => none
  | n :: rest =>
    match insertQ n p q with
    | some n2 => some (n2 :: rest)
    | none =>
      match insertQL rest p q with
      | some rest2 => some (n :: rest2)
      | none => none

end

/-- One question step of `get_all_forms` (scrape.py lines 239-275):
resolve the parent name, skip `Trigger` questions, otherwise append the
question to the first matching parent node. -/
def normStep (root q : QNode) : Option QNode :=
  let pname := resolve_parent_name q.group_member q.loop_member
  if q.qtype == "Trigger" then some root else insertQ root pname q

/-- Normalization loop over the raw questions, in document order. -/
def normalize (root : QNode) : List QNode → Option QNode
  | [] => some root
  | q :: rest =>
    match normStep root q with
    | none => none
    | some r => normalize r rest

mutual

/-- True when no node in the tree carries the `Trigger` type tag. -/
def triggerFree : QNode → Bool
  | .mk _ t _ _ _ gs ls qs =>
      !(t == "Trigger") && triggerFreeL gs && triggerFreeL ls && triggerFreeL qs

def triggerFreeL : List QNode → Bool
  | [] => true
  | n :: ns => triggerFree n && triggerFreeL ns

end

/-! ### Sheet-name compression (`strip_sheet_name`, scrape.py lines 280-305)

The word-truncation `while` loop re-splits the name on `_` each pass,
truncates the first word (excluding the final one) longer than one
character, and rejoins; splitting the rejoined string yields the same
word list again (the words contain no `_`), so the loop is modelled
directly on the word list. -/

/-- Sum of the word lengths; decreases at every productive truncation. -/
def wordsLen (ws : List String) : Nat := (ws.map String.length).sum

/-- One pass of the truncation loop body (scrape.py lines 298-302): the
first word before the final one whose length exceeds 1 is cut to its
first character. -/
def truncFirst : List String → List String
  | [] => []
  | [w] => [w]
  | w :: ws =>
    if 1 < w.length then String.mk (w.data.take 1) :: ws else w :: truncFirst ws

theorem truncFirst_wordsLen_lt :
    ∀ ws : List String, truncFirst ws ≠ ws → wordsLen (truncFirst ws) < wordsLen ws := by
  intro ws
  induction ws with
  | nil => intro h; exact absurd rfl h
  | cons w ws ih =>
    intro h
    match ws, ih with
    | [], _ => exact absurd rfl h
    | w2 :: ws2, ih =>
      by_cases hw : 1 < w.length
      · have hred : truncFirst (w :: w2 :: ws2) = String.mk (w.data.take 1) :: w2 :: ws2 := by
          simp [truncFirst, hw]
        rw [hred]
        have hlen : (String.mk (w.data.take 1)).length < w.length := by
          show (w.data.take 1).length < w.data.length
          have hw2 : 1 < w.data.length := hw
          rw [List.length_take]
          omega
        simp only [wordsLen, List.map_cons, List.sum_cons]
        omega
      · have hred : truncFirst (w :: w2 :: ws2) = w :: truncFirst (w2 :: ws2) := by
          simp [truncFirst, hw]
        rw [hred]
        have hne : truncFirst (w2 :: ws2) ≠ w2 :: ws2 := by
          intro heq; apply h; rw [hred, heq]
        have := ih hne
        simp only [wordsLen, List.map_cons, List.sum_cons] at *
        omega

/-- The `while len(sheet_name) > 31 and sheet_name != last_name` loop of
`strip_sheet_name`, with an explicit iteration bound.  Each productive
pass strictly decreases the total word length
(`truncFirst_wordsLen_lt`) and an unproductive pass exits the loop, so
the `wordsLen ws + 1` bound used by `truncLoopW` is never exhausted and
the bounded recursion coincides with the unbounded Python loop. -/
def truncLoopF : Nat → List String → List String
  | 0, ws => ws
  | fuel + 1, ws =>
    if (pyJoinU ws).length ≤ 31 then ws
    else
      let ws2 := truncFirst ws
      if ws2 = ws then ws else truncLoopF fuel ws2

/-- The truncation loop entered with its adequate fuel. -/
def truncLoopW (ws : List String) : List String := truncLoopF (wordsLen ws + 1) ws

/-- Step a of the shortening chain: replace `and` with `&`. -/
def stepA (s : String) : String := pyReplace s "and" "&"

/-- Step b: remove parenthesis characters. -/
def stepB (s : String) : String := pyReplace (pyReplace s "(" "") ")" ""

/-- Step c: replace `enrollment` with `enroll`. -/
def stepC (s : String) : String := pyReplace s "enrollment" "enroll"

/-- Step d: replace `change` with `chng`. -/
def stepD (s : String) : String := pyReplace s "change" "chng"

/-- Step e: the word-truncation loop (split on `_`, truncate, rejoin). -/
def stepE (s : String) : String := pyJoinU (truncLoopW (pySplitU s))

/-- The body of `strip_sheet_name` (scrape.py lines 280-305): the four
replacements run unconditionally, then the guarded truncation loop. -/
def strip_sheet_name (sheet_name : String) : String :=
  let s1 := pyReplace sheet_name "and" "&"
  let s2 := pyReplace (pyReplace s1 "(" "") ")" ""
  let s3 := pyReplace s2 "enrollment" "enroll"
  let s4 := pyReplace s3 "change" "chng"
  pyJoinU (truncLoopW (pySplitU s4))

/-- Length-bound enforcement of `create_form_spreadsheet` (scrape.py
lines 404-414): strip the combined name, fall back to stripping just the
base form name, and abort (`exit()`, modelled `none`) if still over 31. -/
def compressName (sheet_name form_name : String) : Option String :=
  if sheet_name.length > 31 then
    let s1 := strip_sheet_name sheet_name
    if s1.length > 31 then
      let s2 := strip_sheet_name form_name
      if s2.length > 31 then none else some s2
    else some s1
  else some sheet_name

/-- The single-candidate compression contract of the spec: candidate and
fallback base coincide (the `parent_name = ''` case of the source). -/
def compress (x : String) : Option String := compressName x x

/-- Name-collision disambiguation of `create_form_spreadsheet` (scrape.py
lines 416-420): while the candidate is registered, replace its last
character with an incremented counter.  The Python loop has no bound;
`fuel` bounds the modelled iteration count, `none` standing for a run
that is still looping after `fuel` retries. -/
def reserveLoop (fuel counter : Nat) (name : String) (registry : List String) : Option String :=
  match fuel with
  | 0 => if name ∈ registry then none else some name
  | fuel + 1 =>
    if name ∈ registry then
      reserveLoop fuel (counter + 1)
        (String.mk name.data.dropLast ++ toString (counter + 1)) registry
    else some name

/-! ### Flattening into spreadsheet relationships (scrape.py lines 353-663)

Only the returned `spreadsheet_relationships` dictionaries and the
mutable `self.database_table_names` registry are modelled; the
`xlsxwriter` worksheet writes are side effects on an output artifact and
carry no further dataflow inside the program. -/

/-- One entry of a `spreadsheet_relationships['columns']` list. -/
structure ColumnData where
  question_id : String
  question_text : Option String
  question_type : String
  calculation : Option String
  database_column : String
deriving DecidableEq

/-- A `spreadsheet_relationships` dictionary: the TableSpecification of
the spec (`form_name`, `table_target`, `columns`, `children`). -/
inductive SheetRel : Type where
  | mk (form_name table_target : String) (columns : List ColumnData) (children : List SheetRel)

def SheetRel.form_name : SheetRel → String
  | .mk n _ _ _ => n

def SheetRel.table_target : SheetRel → String
  | .mk _ t _ _ => t

def SheetRel.columns : SheetRel → List ColumnData
  | .mk _ _ cs _ => cs

def SheetRel.children : SheetRel → List SheetRel
  | .mk _ _ _ ch => ch

/-- Normalized form/group/loop node as consumed by the flattener: the
dict fields `name`, `xmlns`, `id`, `text`, `type`, `calculation` and the
three child lists. -/
inductive FormNode : Type where
  | mk (name xmlns id : String) (text : Option String) (qtype : String)
       (calculation : Option String) (groups loops questions : List FormNode)

def FormNode.name : FormNode → String
  | .mk n _ _ _ _ _ _ _ _ => n

def FormNode.xmlns : FormNode → String
  | .mk _ x _ _ _ _ _ _ _ => x

def FormNode.id : FormNode → String
  | .mk _ _ i _ _ _ _ _ _ => i

def FormNode.text : FormNode → Option String
  | .mk _ _ _ t _ _ _ _ _ => t

def FormNode.qtype : FormNode → String
  | .mk _ _ _ _ ty _ _ _ _ => ty

def FormNode.calculation : FormNode → Option String
  | .mk _ _ _ _ _ c _ _ _ => c

def FormNode.groups : FormNode → List FormNode
  | .mk _ _ _ _ _ _ gs _ _ => gs

def FormNode.loops : FormNode → List FormNode
  | .mk _ _ _ _ _ _ _ ls _ => ls

def FormNode.questions : FormNode → List FormNode
  | .mk _ _ _ _ _ _ _ _ qs => qs

/-- Database column name derivation (scrape.py lines 575-577 and
628-630): lower-case, `/`→`.`, `-`→`_`, and keep only the final
dot-segment when a dot is present. -/
def dbColName (qid : String) : String :=
  let s := pyReplace (pyReplace (pyLower qid) "/" ".") "-" "_"
  if s.data.contains '.' then ((splitChar '.' s.data).map String.mk).getLastD s else s

/-- Column record emitted for one plain question (scrape.py lines
579-585 and 631-637). -/
def questionCol (q : FormNode) : ColumnData :=
  { question_id := q.id, question_text := q.text, question_type := q.qtype,
    calculation := q.calculation, database_column := dbColName q.id }

/-- Fixed auto-generated column record (question text `''`, calculation
marker `auto-generated`). -/
def autoCol (qid dbcol : String) : ColumnData :=
  { question_id := qid, question_text := some "", question_type := "Hidden",
    calculation := some "auto-generated", database_column := dbcol }

/-- Identity columns written ahead of the user columns by
`create_form_spreadsheet` (scrape.py lines 454-571); root tables get
`meta_started_time`/`meta_completed_time`, loop tables `parent_form_id`.
The `recieved_on` question id reproduces the source's spelling. -/
def systemColumns (is_loop : Bool) : List ColumnData :=
  [autoCol "id" "id", autoCol "recieved_on" "received_on", autoCol "case_id" "case_id",
   autoCol "username" "meta_username", autoCol "app_id" "meta_app_id",
   autoCol "device_id" "meta_device_id", autoCol "gps_location" "meta_gps"] ++
  (if is_loop then [autoCol "parent_form_id" "parent_form_id"]
   else [autoCol "started_time" "meta_started_time", autoCol "completed_time" "meta_completed_time"])

mutual

/-- Transitive group flattening of `get_group_questions` (scrape.py lines
621-663): the group's own questions, then the questions of nested groups,
collected into the same table.  Any loop found inside the group reaches
line 658, which calls `self.generate_spreadsheets` — a method that does
not exist anywhere in the class — so the Python run dies with an
`AttributeError`; that crash is the `none` branch. -/
def get_group_questions : FormNode → Option (List ColumnData × List SheetRel)
  | .mk _ _ _ _ _ _ gs ls qs =>
    match get_group_questions_list gs with
    | none => none
    | some (subCols, subChildren) =>
      match ls with
      | [] => some (qs.map questionCol ++ subCols, subChildren)
      | _ :: _ => none

def get_group_questions_list : List FormNode → Option (List ColumnData × List SheetRel)
  | [] => some ([], [])
  | g :: gs =>
    match get_group_questions g with
    | none => none
    | some (cols, children) =>
      match get_group_questions_list gs with
      | none => none
      | some (cols2, children2) => some (cols ++ cols2, children ++ children2)

end

/-- The `create_form_spreadsheet` dataflow (scrape.py lines 375-619):
derive the sheet name from the form's display name, compress it under
the 31-character bound, disambiguate it against the run-wide
`database_table_names` registry, append it to the registry, and
assemble the columns (identity columns, plain questions, transitive
group questions) plus the group-contributed children. -/
def create_form_spreadsheet (fuel : Nat) (name : String)
    (groups questions : List FormNode) (is_loop : Bool)
    (parent_name : String) (registry : List String) : Option (SheetRel × List String) :=
  let form_name := pyLower (pyReplace (pyReplace name " " "_") "/" "_")
  let pn := if parent_name = "" then "" else parent_name ++ "_"
  let base := pyReplace (pyReplace (pyReplace (pn ++ form_name) "(" "") ")" "") "-" ""
  match compressName base form_name with
  | none => none
  | some cand =>
    match reserveLoop fuel 0 cand registry with
    | none => none
    | some sheet_name =>
      match get_group_questions_list groups with
      | none => none
      | some (gcols, gchildren) =>
        some (SheetRel.mk name sheet_name
                (systemColumns is_loop ++ questions.map questionCol ++ gcols) gchildren,
              registry ++ [sheet_name])

mutual

/-- The `generate_form_spreadsheet` controller (scrape.py lines
353-373): emit the base table, then recurse into each member of the
form's `loops` list, appending exactly one child table per loop.  The
Python code mutates `loop['name'] = loop['id']` and propagates `xmlns`
before recursing; here the effective `name` and `xmlns` travel as
explicit arguments. -/
def generate_form_spreadsheet (fuel : Nat) (name xmlns : String) (fi : FormNode)
    (is_loop : Bool) (parent_name : String) (registry : List String) :
    Option (SheetRel × List String) :=
  match fi with
  | .mk _ _ _ _ _ _ gs ls qs =>
    match create_form_spreadsheet fuel name gs qs is_loop parent_name registry with
    | none => none
    | some (rel, registry2) =>
      match genLoops fuel xmlns rel.table_target ls registry2 with
      | none => none
      | some (childs, registry3) =>
        some (SheetRel.mk rel.form_name rel.table_target rel.columns (rel.children ++ childs),
              registry3)

def genLoops (fuel : Nat) (xmlns ptarget : String) (ls : List FormNode)
    (registry : List String) : Option (List SheetRel × List String) :=
  match ls with
  | [] => some ([], registry)
  | lm :: rest =>
    match generate_form_spreadsheet fuel lm.id xmlns lm true ptarget registry with
    | none => none
    | some (child, registry2) =>
      match genLoops fuel xmlns ptarget rest registry2 with
      | none => none
      | some (childs, registry3) => some (child :: childs, registry3)

end

/-- Sheet-name derivation of `generate_case_spreadsheet` (scrape.py lines
688-712): the standard replacements, the strip chain with the
underscore-free fallback, `ValueError` → `none`. -/
def case_sheet_name (case_name : String) : Option String :=
  let sheet0 := pyReplace (pyReplace (pyReplace case_name "(" "") ")" "") "-" ""
  if sheet0.length > 31 then
    let s1 := strip_sheet_name sheet0
    if s1.length > 31 then
      let s2 := strip_sheet_name (pyReplace case_name "_" "")
      if s2.length > 31 then none else some s2
    else some s1
  else some sheet0

/-- Registry effect of `generate_case_spreadsheet` (scrape.py lines
688-715): the name is `case_` plus the lower-cased case type, and the
resolved sheet name is appended to `database_table_names` with no
membership check or disambiguation. -/
def generate_case_spreadsheet (registry : List String) (name : String) :
    Option (String × List String) :=
  match case_sheet_name ("case_" ++ pyLower name) with
  | none => none
  | some sheet_name => some (sheet_name, registry ++ [sheet_name])

/-! ### Schema reconciliation (utils.py)

The live table is a list of columns; `charMaxLen` is the catalog's
`character_maximum_length`, `none` for types without one (TEXT,
TIMESTAMP) — exactly what the widening query reads back as SQL NULL. -/

/-- One live database column: its name and declared maximum length. -/
structure DBCol where
  name : String
  charMaxLen : Option Nat
deriving DecidableEq

/-- Names of the live table's columns, in catalog order. -/
def colNames (t : List DBCol) : List String := t.map DBCol.name

/-- Effect of `ALTER TABLE ... ADD COLUMN ... TEXT`. -/
def addCol (t : List DBCol) (c : String) : List DBCol := t ++ [⟨c, none⟩]

/-- Effect of `ALTER TABLE ... ALTER COLUMN id TYPE VARCHAR(m)`. -/
def widenId (m : Nat) (t : List DBCol) : List DBCol :=
  t.map fun col => if col.name = "id" then ⟨col.name, some m⟩ else col

/-- Catalog lookup of the `id` column. -/
def findId (t : List DBCol) : Option DBCol := t.find? fun col => col.name = "id"

/-- The `id` column's declared maximum length as the widening query sees
it: `none` when the column is missing, `some none` when the length is
SQL NULL. -/
def idInfo (t : List DBCol) : Option (Option Nat) := (findId t).map DBCol.charMaxLen

/-- Effect of `ALTER TABLE ... DROP COLUMN c`. -/
def dropCol (t : List DBCol) (c : String) : List DBCol :=
  t.eraseP fun col => col.name = c

/-- Per-spec-column body of `confirm_table_columns` (utils.py lines
267-317): existence check, the `id` widening path (which crashes with a
`TypeError`, modelled `none`, if `character_maximum_length` is NULL
because the column was added as TEXT), or `ADD COLUMN`. -/
def syncStep (m : Nat) (t : List DBCol) (c : String) : Option (List DBCol) :=
  if c ∈ colNames t then
    if c = "id" then
      match findId t with
      | none => none
      | some col =>
        match col.charMaxLen with
        | none => none
        | some l => some (if l < m then widenId m t else t)
    else some t
  else some (addCol t c)

/-- The spec-column loop of `confirm_table_columns`: thread the live
table and the shrinking `existing_column_list` through `syncStep`. -/
def syncCols (m : Nat) : List String → List String → List DBCol →
    Option (List String × List DBCol)
  | [], ex, t => some (ex, t)
  | c :: rest, ex, t =>
    let ex2 := ex.erase c
    match syncStep m t c with
    | none => none
    | some t2 => syncCols m rest ex2 t2

/-- `confirm_table_columns` (utils.py lines 235-326): read the live
columns except `imported_on`, walk the spec columns, then drop whatever
legacy columns remain unmatched. -/
def confirm_table_columns (m : Nat) (cols : List String) (t : List DBCol) :
    Option (List DBCol) :=
  match syncCols m cols ((colNames t).filter fun c => c ≠ "imported_on") t with
  | none => none
  | some (leftover, t2) => some (leftover.foldl dropCol t2)

/-- `create_table` (utils.py lines 183-202): fixed `id` (VARCHAR of the
configured bound) and `imported_on`, then `columns[1:-1]` and
`columns[-1]` as TEXT.  Indexing `[-1]` raises `IndexError` (`none`)
when the column list is empty. -/
def create_table (m : Nat) (cols : List String) : Option (List DBCol) :=
  match cols.getLast? with
  | none => none
  | some last =>
    some (⟨"id", some m⟩ :: ⟨"imported_on", none⟩ ::
          (((cols.drop 1).dropLast).map (fun c => (⟨c, none⟩ : DBCol)) ++ [⟨last, none⟩]))

/-- `confirm_table_schema` (utils.py lines 204-233): create the table
when absent, leave it alone when present. -/
def confirm_table_schema (m : Nat) (cols : List String) (storage : Option (List DBCol)) :
    Option (List DBCol) :=
  match storage with
  | some t => some t
  | none => create_table m cols

/-- One reconciliation pass as `generate_form_model` performs it
(scrape.py lines 814-815): `confirm_table_schema` then
`confirm_table_columns`. -/
def reconcile (m : Nat) (cols : List String) (storage : Option (List DBCol)) :
    Option (List DBCol) :=
  match confirm_table_schema m cols storage with
  | none => none
  | some t => confirm_table_columns m cols t

/-- `create_case_table` (utils.py lines 8-27): the CREATE statement text;
`properties[-1]` raises `IndexError` (`none`) on an empty property
list, so no table is created. -/
def create_case_table (table : String) (props : List String) : Option String :=
  match props.getLast? with
  | none => none
  | some last =>
    let mids := ((props.drop 1).dropLast).foldl
      (fun acc c => acc ++ "\"" ++ c ++ "\" TEXT, ") ""
    some ("CREATE TABLE \"" ++ table ++
          "\" ( id CHARACTER VARYING(255) PRIMARY KEY, imported_on TIMESTAMP, " ++
          mids ++ "\"" ++ last ++ "\" TEXT );")

/-! ### Reconciliation lemmas

`confirm_table_columns` interleaves two independent folds: the
`existing_column_list.remove` calls (which depend only on the spec
columns) and the DDL side effects on the live table.  The lemmas below
separate them and characterize each. -/

/-- The `existing_column_list` after the `remove` of every spec column. -/
def eraseAll (ex cs : List String) : List String :=
  cs.foldl (fun e c => e.erase c) ex

/-- Table-only part of the spec-column loop. -/
def syncT (m : Nat) : List String → List DBCol → Option (List DBCol)
  | [], t => some t
  | c :: rest, t =>
    match syncStep m t c with
    | none => none
    | some t2 => syncT m rest t2

theorem syncCols_decompose (m : Nat) :
    ∀ (cs ex : List String) (t : List DBCol),
      syncCols m cs ex t =
        match syncT m cs t with
        | none => none
        | some t2 => some (eraseAll ex cs, t2) := by
  intro cs
  induction cs with
  | nil => intro ex t; rfl
  | cons c rest ih =>
    intro ex t
    simp only [syncCols, syncT]
    cases h : syncStep m t c with
    | none => simp
    | some t2 => simpa [eraseAll] using ih (ex.erase c) t2

theorem colNames_addCol (t : List DBCol) (c : String) :
    colNames (addCol t c) = colNames t ++ [c] := by
  simp [colNames, addCol]

theorem colNames_widenId (m : Nat) (t : List DBCol) :
    colNames (widenId m t) = colNames t := by
  induction t with
  | nil => rfl
  | cons x t ih =>
    simp only [widenId, colNames, List.map_cons] at ih ⊢
    by_cases h : x.name = "id" <;> simp [h, ih]

theorem idInfo_unpack (t : List DBCol) (l : Nat) (h : idInfo t = some (some l)) :
    ∃ col, findId t = some col ∧ col.charMaxLen = some l := by
  unfold idInfo at h
  cases hf : findId t with
  | none => rw [hf] at h; simp at h
  | some col =>
    rw [hf] at h
    simp at h
    exact ⟨col, rfl, h⟩

theorem findId_mem (t : List DBCol) (col : DBCol) (h : findId t = some col) :
    col.name = "id" ∧ "id" ∈ colNames t := by
  have h1 := List.find?_some h
  have h2 := List.mem_of_find?_eq_some h
  have hname : col.name = "id" := by simpa using h1
  exact ⟨hname, List.mem_map.mpr ⟨col, h2, hname⟩⟩

theorem findId_widenId (m : Nat) (t : List DBCol) (col : DBCol)
    (h : findId t = some col) : findId (widenId m t) = some ⟨"id", some m⟩ := by
  induction t with
  | nil => simp [findId] at h
  | cons x t ih =>
    by_cases hx : x.name = "id"
    · simp only [widenId, List.map_cons, if_pos hx, findId]
      rw [List.find?_cons_of_pos _ (by simp [hx])]
      simp [hx]
    · simp only [widenId, List.map_cons, if_neg hx, findId] at ih ⊢
      rw [List.find?_cons_of_neg _ (by simp [hx])]
      simp only [findId] at h
      rw [List.find?_cons_of_neg _ (by simp [hx])] at h
      exact ih h

theorem findId_addCol (t : List DBCol) (c : String) (hc : c ≠ "id") :
    findId (addCol t c) = findId t := by
  induction t with
  | nil =>
    simp only [findId, addCol, List.nil_append]
    rw [List.find?_cons_of_neg _ (by simp [hc])]
  | cons x t ih =>
    simp only [findId, addCol, List.cons_append] at ih ⊢
    by_cases hx : x.name = "id"
    · rw [List.find?_cons_of_pos _ (by simp [hx]), List.find?_cons_of_pos _ (by simp [hx])]
    · rw [List.find?_cons_of_neg _ (by simp [hx]), List.find?_cons_of_neg _ (by simp [hx])]
      exact ih

theorem colNames_dropCol_sublist (t : List DBCol) (c : String) :
    (colNames (dropCol t c)).Sublist (colNames t) :=
  List.Sublist.map DBCol.name (List.eraseP_sublist t)

theorem nodup_dropCol (t : List DBCol) (c : String) (h : (colNames t).Nodup) :
    (colNames (dropCol t c)).Nodup :=
  List.Nodup.sublist (colNames_dropCol_sublist t c) h

theorem dropCol_cons_pos (y : DBCol) (t : List DBCol) (c : String) (hy : y.name = c) :
    dropCol (y :: t) c = t := by
  simp [dropCol, List.eraseP_cons, hy]

theorem dropCol_cons_neg (y : DBCol) (t : List DBCol) (c : String) (hy : ¬ y.name = c) :
    dropCol (y :: t) c = y :: dropCol t c := by
  simp [dropCol, List.eraseP_cons, hy]

theorem colNames_cons (y : DBCol) (t : List DBCol) :
    colNames (y :: t) = y.name :: colNames t := rfl

theorem mem_colNames_dropCol (t : List DBCol) (c x : String) (hx : x ≠ c) :
    x ∈ colNames (dropCol t c) ↔ x ∈ colNames t := by
  induction t with
  | nil => simp [dropCol, colNames]
  | cons y t ih =>
    by_cases hy : y.name = c
    · rw [dropCol_cons_pos y t c hy, colNames_cons, List.mem_cons]
      constructor
      · exact Or.inr
      · rintro (he | hm)
        · exact absurd (he.trans hy) hx
        · exact hm
    · rw [dropCol_cons_neg y t c hy, colNames_cons, colNames_cons, List.mem_cons,
          List.mem_cons, ih]

theorem not_mem_colNames_dropCol_self (t : List DBCol) (c : String)
    (h : (colNames t).Nodup) : c ∉ colNames (dropCol t c) := by
  induction t with
  | nil => simp [dropCol, colNames]
  | cons y t ih =>
    rw [colNames_cons, List.nodup_cons] at h
    obtain ⟨hy1, hy2⟩ := h
    by_cases hy : y.name = c
    · rw [dropCol_cons_pos y t c hy, ← hy]
      exact fun hm => hy1 (by
        have : y.name ∈ colNames t := hm
        exact this)
    · rw [dropCol_cons_neg y t c hy, colNames_cons, List.mem_cons]
      rintro (he | hm)
      · exact hy he.symm
      · exact ih hy2 hm

theorem findId_dropCol (t : List DBCol) (c : String) (hc : c ≠ "id") :
    findId (dropCol t c) = findId t := by
  induction t with
  | nil => rfl
  | cons y t ih =>
    by_cases hy : y.name = c
    · rw [dropCol_cons_pos y t c hy]
      have hyid : ¬ y.name = "id" := by rw [hy]; exact hc
      show findId t = findId (y :: t)
      simp only [findId]
      rw [List.find?_cons_of_neg _ (by simp [hyid])]
    · rw [dropCol_cons_neg y t c hy]
      by_cases hid : y.name = "id"
      · simp only [findId]
        rw [List.find?_cons_of_pos _ (by simp [hid]), List.find?_cons_of_pos _ (by simp [hid])]
      · simp only [findId] at ih ⊢
        rw [List.find?_cons_of_neg _ (by simp [hid]), List.find?_cons_of_neg _ (by simp [hid])]
        exact ih

theorem mem_foldl_dropCol :
    ∀ (ls : List String) (t : List DBCol), (colNames t).Nodup →
      (colNames (ls.foldl dropCol t)).Nodup
      ∧ ∀ x, x ∈ colNames (ls.foldl dropCol t) ↔ (x ∈ colNames t ∧ x ∉ ls) := by
  intro ls
  induction ls with
  | nil =>
    intro t h
    exact ⟨h, by simp⟩
  | cons c ls ih =>
    intro t h
    have hd := nodup_dropCol t c h
    obtain ⟨ih1, ih2⟩ := ih (dropCol t c) hd
    refine ⟨ih1, fun x => ?_⟩
    show x ∈ colNames (ls.foldl dropCol (dropCol t c)) ↔ _
    rw [ih2 x]
    by_cases hx : x = c
    · subst hx
      constructor
      · rintro ⟨hmem, _⟩
        exact absurd hmem (not_mem_colNames_dropCol_self t x h)
      · rintro ⟨_, hno⟩
        exact absurd (List.mem_cons_self x ls) hno
    · rw [mem_colNames_dropCol t c x hx]
      simp [hx]

theorem findId_foldl_dropCol :
    ∀ (ls : List String) (t : List DBCol), "id" ∉ ls →
      findId (ls.foldl dropCol t) = findId t := by
  intro ls
  induction ls with
  | nil => intro t _; rfl
  | cons c ls ih =>
    intro t h
    have hc : c ≠ "id" := fun e => h (by simp [e])
    show findId (ls.foldl dropCol (dropCol t c)) = _
    rw [ih _ (fun hm => h (by simp [hm])), findId_dropCol t c hc]

theorem eraseAll_nodup : ∀ (cs ex : List String), ex.Nodup → (eraseAll ex cs).Nodup := by
  intro cs
  induction cs with
  | nil => intro ex h; exact h
  | cons c cs ih => intro ex h; exact ih _ (h.erase c)

theorem mem_eraseAll :
    ∀ (cs ex : List String), ex.Nodup →
      ∀ x, x ∈ eraseAll ex cs ↔ (x ∈ ex ∧ x ∉ cs) := by
  intro cs
  induction cs with
  | nil => intro ex _ x; simp [eraseAll]
  | cons c cs ih =>
    intro ex h x
    rw [show eraseAll ex (c :: cs) = eraseAll (ex.erase c) cs from rfl]
    rw [ih _ (h.erase c) x, List.Nodup.mem_erase_iff h, List.mem_cons]
    tauto

theorem eraseAll_eq_nil (cs ex : List String) (h : ex.Nodup)
    (hsub : ∀ x ∈ ex, x ∈ cs) : eraseAll ex cs = [] := by
  rw [List.eq_nil_iff_forall_not_mem]
  intro x hx
  rw [mem_eraseAll cs ex h x] at hx
  exact hx.2 (hsub x hx.1)

theorem syncT_success (m : Nat) :
    ∀ (cs : List String) (t : List DBCol),
      (colNames t).Nodup →
      ("id" ∈ cs → ∃ l, idInfo t = some (some l)) →
      ∃ t2, syncT m cs t = some t2
        ∧ (∀ x, x ∈ colNames t2 ↔ (x ∈ colNames t ∨ x ∈ cs))
        ∧ (colNames t2).Nodup
        ∧ ("id" ∈ cs → ∃ l2, idInfo t2 = some (some l2) ∧ m ≤ l2)
        ∧ ("id" ∉ cs → idInfo t2 = idInfo t) := by
  intro cs
  induction cs with
  | nil =>
    intro t hnd _
    exact ⟨t, rfl, by simp, hnd, by simp, fun _ => rfl⟩
  | cons c cs ih =>
    intro t hnd hid
    by_cases hmem : c ∈ colNames t
    · by_cases hc : c = "id"
      · subst hc
        obtain ⟨l, hinfo⟩ := hid (by simp)
        obtain ⟨col, hfind, hlen⟩ := idInfo_unpack t l hinfo
        have hstep : syncStep m t "id" = some (if l < m then widenId m t else t) := by
          unfold syncStep
          rw [if_pos hmem, if_pos rfl]
          simp only [hfind, hlen]
        have hnames1 : colNames (if l < m then widenId m t else t) = colNames t := by
          split
          · exact colNames_widenId m t
          · rfl
        have hnd1 : (colNames (if l < m then widenId m t else t)).Nodup := by
          rw [hnames1]; exact hnd
        have hid1 : ∃ l1, idInfo (if l < m then widenId m t else t) = some (some l1) ∧ m ≤ l1 := by
          split
          · refine ⟨m, ?_, le_refl m⟩
            unfold idInfo
            rw [findId_widenId m t col hfind]
            rfl
          · next hlm =>
            refine ⟨l, ?_, by omega⟩
            unfold idInfo
            rw [hfind]
            simp [hlen]
        obtain ⟨t2, hsync2, hmem2, hnd2, hidin2, hidout2⟩ :=
          ih (if l < m then widenId m t else t) hnd1 (fun _ => hid1.imp (fun l1 hh => hh.1))
        refine ⟨t2, ?_, ?_, hnd2, ?_, ?_⟩
        · simp only [syncT, hstep]
          exact hsync2
        · intro x
          rw [hmem2 x, hnames1, List.mem_cons]
          constructor
          · rintro (hx | hx)
            · exact Or.inl hx
            · exact Or.inr (Or.inr hx)
          · rintro (hx | hx | hx)
            · exact Or.inl hx
            · subst hx; exact Or.inl hmem
            · exact Or.inr hx
        · intro _
          by_cases hin : "id" ∈ cs
          · exact hidin2 hin
          · obtain ⟨l1, hi1, hle1⟩ := hid1
            exact ⟨l1, by rw [hidout2 hin]; exact hi1, hle1⟩
        · intro hno
          exact absurd (List.mem_cons_self "id" cs) hno
      · have hstep : syncStep m t c = some t := by
          unfold syncStep
          rw [if_pos hmem, if_neg hc]
        obtain ⟨t2, hsync2, hmem2, hnd2, hidin2, hidout2⟩ :=
          ih t hnd (fun hin => hid (by simp [hin]))
        refine ⟨t2, ?_, ?_, hnd2, ?_, ?_⟩
        · simp only [syncT, hstep]
          exact hsync2
        · intro x
          rw [hmem2 x, List.mem_cons]
          constructor
          · rintro (hx | hx)
            · exact Or.inl hx
            · exact Or.inr (Or.inr hx)
          · rintro (hx | hx | hx)
            · exact Or.inl hx
            · subst hx; exact Or.inl hmem
            · exact Or.inr hx
        · intro hin
          rcases List.mem_cons.mp hin with he | hin2
          · exact absurd he.symm hc
          · exact hidin2 hin2
        · intro hno
          exact hidout2 (fun hin => hno (by simp [hin]))
    · have hstep : syncStep m t c = some (addCol t c) := by
        unfold syncStep
        rw [if_neg hmem]
      have hc : c ≠ "id" := by
        intro he
        subst he
        obtain ⟨l, hinfo⟩ := hid (by simp)
        obtain ⟨col, hfind, _⟩ := idInfo_unpack t l hinfo
        exact hmem (findId_mem t col hfind).2
      have hnd1 : (colNames (addCol t c)).Nodup := by
        rw [colNames_addCol]
        simp [List.nodup_append, hnd, hmem]
      have hidadd : idInfo (addCol t c) = idInfo t := by
        unfold idInfo
        rw [findId_addCol t c hc]
      obtain ⟨t2, hsync2, hmem2, hnd2, hidin2, hidout2⟩ :=
        ih (addCol t c) hnd1 (fun hin => by rw [hidadd]; exact hid (by simp [hin]))
      refine ⟨t2, ?_, ?_, hnd2, ?_, ?_⟩
      · simp only [syncT, hstep]
        exact hsync2
      · intro x
        rw [hmem2 x, colNames_addCol, List.mem_append, List.mem_cons]
        simp only [List.mem_singleton, List.mem_cons]
        tauto
      · intro hin
        rcases List.mem_cons.mp hin with he | hin2
        · exact absurd he.symm hc
        · exact hidin2 hin2
      · intro hno
        rw [hidout2 (fun hin => hno (by simp [hin])), hidadd]

theorem syncT_noop (m : Nat) :
    ∀ (cs : List String) (t : List DBCol),
      (∀ c ∈ cs, c ∈ colNames t) →
      ("id" ∈ cs → ∃ l, idInfo t = some (some l) ∧ m ≤ l) →
      syncT m cs t = some t := by
  intro cs
  induction cs with
  | nil => intro t _ _; rfl
  | cons c cs ih =>
    intro t hmem hid
    have hmc := hmem c (by simp)
    by_cases hc : c = "id"
    · subst hc
      obtain ⟨l, hinfo, hle⟩ := hid (by simp)
      obtain ⟨col, hfind, hlen⟩ := idInfo_unpack t l hinfo
      have hstep : syncStep m t "id" = some t := by
        unfold syncStep
        rw [if_pos hmc, if_pos rfl]
        simp only [hfind, hlen]
        simp [Nat.not_lt.mpr hle]
      simp only [syncT, hstep]
      exact ih t (fun x hx => hmem x (by simp [hx])) (fun hin => hid (by simp [hin]))
    · have hstep : syncStep m t c = some t := by
        unfold syncStep
        rw [if_pos hmc, if_neg hc]
      simp only [syncT, hstep]
      exact ih t (fun x hx => hmem x (by simp [hx])) (fun hin => hid (by simp [hin]))

/-! ### Claim theorems -/

/-- C1 counterexample: the claim states that when exactly one scope hint
is present that hint is chosen, but with only the loop hint `"loopA"`
present the code resolves the parent name to `None` (the outer
`if group_name:` has no `else`), not to `"loopA"`. -/
theorem c1_counterexample :
    resolve_parent_name none (some "loopA") = none
    ∧ resolve_parent_name none (some "loopA") ≠ some "loopA" := ⟨rfl, by decide⟩

/-- C1 (amended): with both hints truthy the group hint is chosen
exactly when the loop hint is a substring of the group hint and the
group hint is strictly longer; with only the group hint present that
hint is chosen; with only the loop hint present the hint is ignored and
the parent name stays `None`; with neither hint the parent name is
`None`; and a `None` parent name attaches the question to the form root
(the root, whose `value` is `None`, is the first `find_parent` match). -/
theorem c1_amended (g l : String) (hg : g ≠ "") (hl : l ≠ "") :
    resolve_parent_name (some g) (some l) =
      (if pyInStr l g && decide (l.length < g.length) then some g else some l)
    ∧ resolve_parent_name (some g) none = some g
    ∧ resolve_parent_name none (some l) = none
    ∧ resolve_parent_name none none = none
    ∧ findParent (QNode.mk none "" false none none [] [] []) none
        = some (QNode.mk none "" false none none [] [] []) := by
  refine ⟨?_, ?_, ?_, rfl, ?_⟩
  · simp [resolve_parent_name, truthy, hg, hl]
  · simp [resolve_parent_name, truthy, hg]
  · simp [resolve_parent_name, truthy]
  · rfl

/-- C1 witness: the amended resolution evaluated at concrete hints. -/
theorem c1_amended_witness :
    resolve_parent_name (some "grp") (some "lp") = some "lp"
    ∧ resolve_parent_name (some "grp") none = some "grp"
    ∧ resolve_parent_name none (some "lp") = none := by
  have h := c1_amended "grp" "lp" (by decide) (by decide)
  refine ⟨?_, h.2.1, h.2.2.1⟩
  have hc : (pyInStr "lp" "grp" && decide ("lp".length < "grp".length)) = false := rfl
  have h1 := h.1
  rw [hc] at h1
  simpa using h1

/-- C2 counterexample: a retained non-group question whose type tag is
`Repeat` is appended to BOTH the resolved parent's `loops` list and its
`questions` list, contradicting the claimed exactly-one placement. -/
theorem c2_counterexample :
    (normalize (QNode.mk none "" false none none [] [] [])
        [QNode.mk (some "q1") "Repeat" false none none [] [] []]).map
        (fun t => (t.loops, t.questions))
      = some ([QNode.mk (some "q1") "Repeat" false none none [] [] []],
              [QNode.mk (some "q1") "Repeat" false none none [] [] []]) := rfl

/-- Appending trigger-free nodes keeps a child list trigger-free. -/
theorem triggerFreeL_append (l1 l2 : List QNode) :
    triggerFreeL (l1 ++ l2) = (triggerFreeL l1 && triggerFreeL l2) := by
  induction l1 with
  | nil => simp [triggerFreeL]
  | cons n ns ih => simp [triggerFreeL, ih, Bool.and_assoc]

/-- The classification appends preserve trigger-freeness. -/
theorem addChild_trigger (n q : QNode) (hn : triggerFree n = true)
    (hq : triggerFree q = true) : triggerFree (addChild n q) = true := by
  cases n with
  | mk v ty g gm lm gs ls qs =>
    simp only [triggerFree, Bool.and_eq_true] at hn
    obtain ⟨⟨⟨hty, hgs⟩, hls⟩, hqs⟩ := hn
    simp only [addChild]
    split <;> split <;> split <;>
      simp_all [QNode.setGroups, QNode.setLoops, QNode.setQuestions, QNode.groups,
                QNode.loops, QNode.questions, triggerFree, triggerFreeL_append, triggerFreeL]

mutual

/-- Inserting a trigger-free question anywhere in a trigger-free tree
keeps the tree trigger-free. -/
theorem insertQ_trigger (n : QNode) (p : Option String) (q t : QNode)
    (hn : triggerFree n = true) (hq : triggerFree q = true)
    (h : insertQ n p q = some t) : triggerFree t = true := by
  cases n with
  | mk v ty g gm lm gs ls qs =>
    simp only [insertQ] at h
    simp only [triggerFree, Bool.and_eq_true] at hn
    obtain ⟨⟨⟨hty, hgs⟩, hls⟩, hqs⟩ := hn
    split at h
    · injection h with h2
      subst h2
      apply addChild_trigger _ _ ?_ hq
      simp [triggerFree, hty, hgs, hls, hqs]
    · cases hg : insertQL gs p q with
      | some gs2 =>
        simp only [hg] at h
        injection h with h2
        subst h2
        have hrec := insertQL_trigger gs p q gs2 hgs hq hg
        simp [triggerFree, hty, hrec, hls, hqs]
      | none =>
        simp only [hg] at h
        cases hl : insertQL ls p q with
        | some ls2 =>
          simp only [hl] at h
          injection h with h2
          subst h2
          have hrec := insertQL_trigger ls p q ls2 hls hq hl
          simp [triggerFree, hty, hgs, hrec, hqs]
        | none =>
          simp only [hl] at h
          exact Option.noConfusion h

theorem insertQL_trigger (ns : List QNode) (p : Option String) (q : QNode) (ts : List QNode)
    (hn : triggerFreeL ns = true) (hq : triggerFree q = true)
    (h : insertQL ns p q = some ts) : triggerFreeL ts = true := by
  cases ns with
  | nil =>
    simp only [insertQL] at h
    exact Option.noConfusion h
  | cons n rest =>
    simp only [insertQL] at h
    simp only [triggerFreeL, Bool.and_eq_true] at hn
    obtain ⟨hn1, hn2⟩ := hn
    cases hi : insertQ n p q with
    | some n2 =>
      simp only [hi] at h
      injection h with h2
      subst h2
      have hrec := insertQ_trigger n p q n2 hn1 hq hi
      simp [triggerFreeL, hrec, hn2]
    | none =>
      simp only [hi] at h
      cases hr : insertQL rest p q with
      | some rest2 =>
        simp only [hr] at h
        injection h with h2
        subst h2
        have hrec := insertQL_trigger rest p q rest2 hn2 hq hr
        simp [triggerFreeL, hn1, hrec]
      | none =>
        simp only [hr] at h
        exact Option.noConfusion h

end

/-- One normalization step preserves trigger-freeness when the raw
question carries empty child lists (as every parsed question does). -/
theorem normStep_trigger (root q r : QNode) (hroot : triggerFree root = true)
    (hq : q.groups = [] ∧ q.loops = [] ∧ q.questions = [])
    (h : normStep root q = some r) : triggerFree r = true := by
  simp only [normStep] at h
  split at h
  · injection h with h2
    subst h2
    exact hroot
  next ht =>
    apply insertQ_trigger root _ q r hroot ?_ h
    cases q with
    | mk v ty g gm lm gs ls qs =>
      obtain ⟨e1, e2, e3⟩ := hq
      simp only [QNode.groups] at e1
      simp only [QNode.loops] at e2
      simp only [QNode.questions] at e3
      subst e1
      subst e2
      subst e3
      simp only [QNode.qtype] at ht
      simp only [Bool.not_eq_true] at ht
      simp [triggerFree, triggerFreeL, ht]

/-- Normalizing a trigger-free root over raw questions with empty child
lists yields a trigger-free tree. -/
theorem normalize_trigger :
    ∀ (qs : List QNode) (root t : QNode),
      triggerFree root = true →
      (∀ x ∈ qs, x.groups = [] ∧ x.loops = [] ∧ x.questions = []) →
      normalize root qs = some t → triggerFree t = true := by
  intro qs
  induction qs with
  | nil =>
    intro root t h _ hn
    simp only [normalize] at hn
    injection hn with h2
    subst h2
    exact h
  | cons q rest ih =>
    intro root t hroot hraw hn
    simp only [normalize] at hn
    cases hstep : normStep root q with
    | none =>
      simp only [hstep] at hn
      exact Option.noConfusion hn
    | some r =>
      simp only [hstep] at hn
      exact ih r t (normStep_trigger root q r hroot (hraw q (by simp)) hstep)
        (fun x hx => hraw x (by simp [hx])) hn

/-- C2 (amended): every retained question is appended to at least one of
the resolved parent's three child lists; the placement is unique exactly
when the question is not a non-group node of type `Repeat` (a non-group
`Repeat` lands in both the loop list and the question list,
`c2_counterexample`); and no `Trigger`-typed node ever appears in the
normalized output tree. -/
theorem c2_amended (p q root : QNode) (qs : List QNode) (t : QNode)
    (hroot : triggerFree root = true)
    (hraw : ∀ x ∈ qs, x.groups = [] ∧ x.loops = [] ∧ x.questions = [])
    (hnorm : normalize root qs = some t) :
    ((addChild p q).groups.length + (addChild p q).loops.length
        + (addChild p q).questions.length
      = p.groups.length + p.loops.length + p.questions.length + placements q)
    ∧ 1 ≤ placements q
    ∧ (placements q = 1 ↔ ¬(q.isGroup = false ∧ q.qtype = "Repeat"))
    ∧ triggerFree t = true := by
  refine ⟨?_, ?_, ?_, normalize_trigger qs root t hroot hraw hnorm⟩
  · cases p with
    | mk v ty g gm lm gs ls qs2 =>
      cases q with
      | mk qv qty qg qgm qlm qgs qls qqs =>
        cases qg <;> cases hb : (qty == "Repeat") <;>
          simp [addChild, placements, hb, QNode.isGroup, QNode.qtype,
                QNode.setGroups, QNode.setLoops, QNode.setQuestions,
                QNode.groups, QNode.loops, QNode.questions] <;> omega
  · cases q with
    | mk qv qty qg qgm qlm qgs qls qqs =>
      cases qg <;> cases hb : (qty == "Repeat") <;>
        simp [placements, hb, QNode.isGroup, QNode.qtype]
  · cases q with
    | mk qv qty qg qgm qlm qgs qls qqs =>
      cases qg <;> cases hb : (qty == "Repeat") <;>
        simp_all [placements, QNode.isGroup, QNode.qtype]

/-- C2 witness: the amended statement at a concrete run. -/
theorem c2_amended_witness :
    1 ≤ placements (QNode.mk (some "q") "Text" false none none [] [] [])
    ∧ triggerFree (QNode.mk none "" false none none [] [] []) = true := by
  have h := c2_amended (QNode.mk none "" false none none [] [] [])
    (QNode.mk (some "q") "Text" false none none [] [] [])
    (QNode.mk none "" false none none [] [] []) []
    (QNode.mk none "" false none none [] [] []) rfl
    (fun x hx => absurd hx (List.not_mem_nil x)) rfl
  exact ⟨h.2.1, h.2.2.2⟩

/-- C3: the code bug evaluated.  A loop nested inside a group reaches
scrape.py line 658, which calls the nonexistent method
`self.generate_spreadsheets`, so the run dies with an `AttributeError`
(`none`) instead of producing a child table; the same loop placed
directly in the form's scope yields exactly one child
TableSpecification appended to the enclosing table. -/
theorem c3_code_bug_eval :
    generate_form_spreadsheet 3 "visit form" "ns1"
        (FormNode.mk "visit form" "ns1" "" none "" none
          [FormNode.mk "" "ns1" "form/grp" none "Group" none []
            [FormNode.mk "" "ns1" "form/grp/loop1" none "Repeat" none [] [] []] []]
          [] [])
        false "" [] = none
    ∧ (generate_form_spreadsheet 3 "visit form" "ns1"
        (FormNode.mk "visit form" "ns1" "" none "" none []
          [FormNode.mk "" "ns1" "form/grp/loop1" none "Repeat" none [] [] []] [])
        false "" []).map (fun p => (p.1.children.map SheetRel.table_target, p.2))
      = some (["visit_form_form_grp_loop1"], ["visit_form", "visit_form_form_grp_loop1"]) :=
  ⟨rfl, rfl⟩

/-- C4: the concrete column-diff scenario.  Live columns
`id, imported_on, old_field` reconciled against spec columns
`id, received_on, new_field` leave exactly
`id, imported_on, received_on, new_field`. -/
theorem c4_column_diff :
    (confirm_table_columns 255 ["id", "received_on", "new_field"]
        [⟨"id", some 255⟩, ⟨"imported_on", none⟩, ⟨"old_field", none⟩]).map colNames
      = some ["id", "imported_on", "received_on", "new_field"] := rfl

/-- C5 counterexample: reconciliation is not idempotent for every
storage state.  Starting from a live table with only a `foo` column and
spec columns `[id]`, the first pass adds `id` as TEXT and drops `foo`;
the second pass reaches the widening check, reads a NULL
`character_maximum_length` for `id`, and aborts with a `TypeError`
(`None < MAX_CHARVAR_LENGTH`) instead of completing as a no-op. -/
theorem c5_counterexample :
    reconcile 255 ["id"] (some [⟨"foo", none⟩]) = some [⟨"id", none⟩]
    ∧ reconcile 255 ["id"] (some [⟨"id", none⟩]) = none := ⟨rfl, rfl⟩

/-- C5 (amended): reconciliation is idempotent on every live table whose
column names are distinct and whose `id` column — whenever `id` is among
the spec columns — is present with a declared (non-NULL) maximum
length.  Under those hypotheses a completed first pass is a fixed point:
the second pass performs no create, add, widen or drop and returns the
same storage state.  Without the `id` proviso idempotence fails
(`c5_counterexample`): a first pass that itself added `id` as TEXT makes
the second pass abort on the NULL length. -/
theorem c5_amended (m : Nat) (cols : List String) (t t1 : List DBCol)
    (hnd : (colNames t).Nodup)
    (hid : "id" ∈ cols → ∃ l, idInfo t = some (some l))
    (h1 : reconcile m cols (some t) = some t1) :
    reconcile m cols (some t1) = some t1 := by
  have h1' : confirm_table_columns m cols t = some t1 := h1
  obtain ⟨t2, hsync, hmem2, hnd2, hidin2, hidout2⟩ := syncT_success m cols t hnd hid
  have hexnd : ((colNames t).filter (fun c => c ≠ "imported_on")).Nodup := hnd.filter _
  have hl : confirm_table_columns m cols t
      = some ((eraseAll ((colNames t).filter (fun c => c ≠ "imported_on")) cols).foldl
          dropCol t2) := by
    unfold confirm_table_columns
    rw [syncCols_decompose m cols _ t, hsync]
  rw [hl] at h1'
  injection h1' with ht1
  have hlomem : ∀ x, x ∈ eraseAll ((colNames t).filter (fun c => c ≠ "imported_on")) cols
      ↔ (x ∈ (colNames t).filter (fun c => c ≠ "imported_on") ∧ x ∉ cols) :=
    mem_eraseAll cols _ hexnd
  obtain ⟨hnd_t1, hmem_t1⟩ :=
    mem_foldl_dropCol (eraseAll ((colNames t).filter (fun c => c ≠ "imported_on")) cols) t2 hnd2
  rw [ht1] at hnd_t1 hmem_t1
  have key1 : ∀ c ∈ cols, c ∈ colNames t1 := by
    intro c hc
    exact (hmem_t1 c).mpr
      ⟨(hmem2 c).mpr (Or.inr hc), fun hin => ((hlomem c).mp hin).2 hc⟩
  have key2 : "id" ∈ cols → ∃ l, idInfo t1 = some (some l) ∧ m ≤ l := by
    intro hin
    have hno : "id" ∉ eraseAll ((colNames t).filter (fun c => c ≠ "imported_on")) cols :=
      fun hm => ((hlomem _).mp hm).2 hin
    obtain ⟨l2, hi2, hle⟩ := hidin2 hin
    refine ⟨l2, ?_, hle⟩
    rw [← ht1]
    have heq : idInfo ((eraseAll ((colNames t).filter (fun c => c ≠ "imported_on")) cols).foldl
        dropCol t2) = idInfo t2 := by
      unfold idInfo
      rw [findId_foldl_dropCol _ t2 hno]
    rw [heq]
    exact hi2
  have key3 : ∀ x ∈ colNames t1, x ≠ "imported_on" → x ∈ cols := by
    intro x hx hxi
    obtain ⟨hx2, hxlo⟩ := (hmem_t1 x).mp hx
    rcases (hmem2 x).mp hx2 with hxt | hxc
    · by_contra hxc2
      exact hxlo ((hlomem x).mpr ⟨List.mem_filter.mpr ⟨hxt, by simp [hxi]⟩, hxc2⟩)
    · exact hxc
  have h2sync : syncT m cols t1 = some t1 := syncT_noop m cols t1 key1 key2
  have hex2nd : ((colNames t1).filter (fun c => c ≠ "imported_on")).Nodup := hnd_t1.filter _
  have hex2sub : ∀ x ∈ (colNames t1).filter (fun c => c ≠ "imported_on"), x ∈ cols := by
    intro x hx
    obtain ⟨hx1, hx2⟩ := List.mem_filter.mp hx
    exact key3 x hx1 (by simpa using hx2)
  show confirm_table_columns m cols t1 = some t1
  unfold confirm_table_columns
  rw [syncCols_decompose m cols _ t1, h2sync, eraseAll_eq_nil cols _ hex2nd hex2sub]
  rfl

/-- C5 witness: a spec-conformant live table is a fixed point of
reconciliation. -/
theorem c5_amended_witness :
    reconcile 255 ["id"] (some [⟨"id", some 255⟩]) = some [⟨"id", some 255⟩] :=
  c5_amended 255 ["id"] [⟨"id", some 255⟩] [⟨"id", some 255⟩] (by simp [colNames])
    (fun _ => ⟨255, rfl⟩) rfl

/-- C6 counterexample: a case-table identifier is appended to the
run-wide registry without any check, so issuing case `x` when
`case_x` is already registered hands out the duplicate identifier
`case_x` and leaves it twice in the registry. -/
theorem c6_counterexample :
    generate_case_spreadsheet ["case_x"] "x" = some ("case_x", ["case_x", "case_x"]) := rfl

/-- C7 counterexample: the claim states a later shortening step is never
applied once a prior step brings the candidate within 31 characters,
but for a 32-character name the `and`→`&` step already reaches 24
characters and the code still applies the `enrollment`→`enroll`
replacement. -/
theorem c7_counterexample :
    ("and_and_and_and_enrollment_zzzzz".length > 31
      ∧ (stepA "and_and_and_and_enrollment_zzzzz").length ≤ 31)
    ∧ strip_sheet_name "and_and_and_and_enrollment_zzzzz" = "&_&_&_&_enroll_zzzzz"
    ∧ strip_sheet_name "and_and_and_and_enrollment_zzzzz"
        ≠ stepA "and_and_and_and_enrollment_zzzzz" :=
  ⟨⟨by decide, by decide⟩, rfl, by decide⟩

/-- C7 (amended): the chain as a whole runs only when the candidate
exceeds 31 characters (a short candidate is returned untouched);
steps a-d are each applied exactly once, unconditionally, in order —
the length bound is not re-checked between them — and only the final
word-truncation step is guarded by the bound, leaving any name already
within 31 characters unchanged. -/
theorem c7_amended (s fb : String) (ws : List String)
    (hs : s.length ≤ 31) (hw : (pyJoinU ws).length ≤ 31) :
    compressName s fb = some s
    ∧ strip_sheet_name fb = stepE (stepD (stepC (stepB (stepA fb))))
    ∧ truncLoopW ws = ws := by
  refine ⟨?_, rfl, ?_⟩
  · have : ¬ s.length > 31 := by omega
    simp [compressName, this]
  · simp [truncLoopW, truncLoopF, hw]

/-- C7 witness: the amended behavior at concrete inputs. -/
theorem c7_amended_witness :
    compressName "short_name" "base" = some "short_name"
    ∧ strip_sheet_name "base" = stepE (stepD (stepC (stepB (stepA "base"))))
    ∧ truncLoopW ["ab", "cd"] = ["ab", "cd"] :=
  c7_amended "short_name" "base" ["ab", "cd"] (by decide) (by decide)

/-- C8: whenever `compress` returns a value, that value is within the
31-character bound and `compress` fixes it, so
`compress (compress x) = compress x` and
`len (compress x) ≤ 31` hold on every successful return; the only other
outcome is the fatal name-too-long signal (`none`). -/
theorem c8_compress_idempotent (x y : String) (h : compress x = some y) :
    compress y = some y ∧ y.length ≤ 31 ∧ (compress x).bind compress = compress x := by
  have hlen : y.length ≤ 31 := by
    simp only [compress, compressName] at h
    split at h
    · split at h
      · exact absurd h (by simp)
      · injection h with h2
        subst h2
        omega
    · injection h with h2
      subst h2
      omega
  have hfix : compress y = some y := by
    have : ¬ y.length > 31 := by omega
    simp [compress, compressName, this]
  refine ⟨hfix, hlen, ?_⟩
  rw [h]
  simpa using hfix

/-- C8 witness: idempotence and the bound at a concrete input. -/
theorem c8_compress_idempotent_witness :
    compress "patient_visit" = some "patient_visit"
    ∧ "patient_visit".length ≤ 31 := by
  have h := c8_compress_idempotent "patient_visit" "patient_visit" rfl
  exact ⟨h.1, h.2.1⟩

/-- Freshness of the disambiguation loop: a successful reservation is
never an identifier already present in the registry. -/
theorem reserveLoop_not_mem :
    ∀ (fuel ctr : Nat) (name : String) (reg : List String) (r : String),
      reserveLoop fuel ctr name reg = some r → r ∉ reg := by
  intro fuel
  induction fuel with
  | zero =>
    intro ctr name reg r h
    simp only [reserveLoop] at h
    split at h
    · exact absurd h (by simp)
    · injection h with h2
      subst h2
      assumption
  | succ f ih =>
    intro ctr name reg r h
    simp only [reserveLoop] at h
    split at h
    · exact ih _ _ _ _ h
    · injection h with h2
      subst h2
      assumption

/-- C6 (amended): form-table identifiers are checked and disambiguated
against the run-wide registry before being added — a successful
`create_form_spreadsheet` never returns a `table_target` already
present, and the registry gains exactly that one entry.  Case-table
identifiers, by contrast, are appended with no registry check
(`c6_counterexample`), so a case table can duplicate an identifier
issued earlier in the same run. -/
theorem c6_amended (fuel : Nat) (name : String) (groups questions : List FormNode)
    (il : Bool) (pn : String) (reg reg2 : List String) (rel : SheetRel)
    (h : create_form_spreadsheet fuel name groups questions il pn reg = some (rel, reg2)) :
    rel.table_target ∉ reg ∧ reg2 = reg ++ [rel.table_target] := by
  simp only [create_form_spreadsheet] at h
  split at h
  · exact absurd h (by simp)
  next cand hcand =>
    split at h
    · exact absurd h (by simp)
    next sheet_name hres =>
      split at h
      · exact absurd h (by simp)
      next gcols gchildren hgq =>
        injection h with h2
        injection h2 with hrel hreg
        subst hrel
        subst hreg
        exact ⟨reserveLoop_not_mem _ _ _ _ _ hres, rfl⟩

/-- C6 witness: a concrete successful form issuance is fresh and appends
one registry entry. -/
theorem c6_amended_witness :
    "visit" ∉ ([] : List String) ∧ (["visit"] : List String) = [] ++ ["visit"] := by
  have h := c6_amended 1 "visit" [] [] false "" [] ["visit"]
    (SheetRel.mk "visit" "visit" (systemColumns false) []) rfl
  exact ⟨h.1, h.2⟩

/-- C9: issuing the target identifier `patient_visit` twice in the same
run against an initially empty registry returns `patient_visit` first
and `patient_visi1` (last character replaced by the counter `1`)
second. -/
theorem c9_name_collision :
    (create_form_spreadsheet 5 "Patient Visit" [] [] false "" []).map
        (fun p => (p.1.table_target, p.2))
      = some ("patient_visit", ["patient_visit"])
    ∧ (create_form_spreadsheet 5 "Patient Visit" [] [] false "" ["patient_visit"]).map
        (fun p => (p.1.table_target, p.2))
      = some ("patient_visi1", ["patient_visit", "patient_visi1"]) := ⟨rfl, rfl⟩

/-- C10: `create_case_table` indexes `properties[-1]`, so the CREATE
statement is produced exactly when the property list is nonempty; an
empty list raises `IndexError` and no table is created. -/
theorem c10_create_case_table (table : String) (props : List String) :
    (create_case_table table props).isSome = true ↔ props ≠ [] := by
  cases props with
  | nil => simp [create_case_table]
  | cons p ps =>
    constructor
    · intro _
      simp
    · intro _
      simp only [create_case_table]
      cases h : (p :: ps).getLast? with
      | none =>
        rw [List.getLast?_eq_none_iff] at h
        exact absurd h (by simp)
      | some last => simp

end DjangoCommcare
